import Mathlib

/-!
Verification of the release_tool version algebra and git operation layer.

The version algebra (`bump_dev`, `bump_semver`, `bump_version`,
`_next_dev_version` from `stage4.py`) is embedded as pure functions over
`String`.  The source parses version strings with
`packaging.version.Version`; we model the PEP 440 fragment this repository
actually exercises: a dotted numeric release (one or more components)
optionally followed by a `.devN` suffix with at least one digit.  Strings
with epoch, pre-, post- or local segments are outside the model.

The git operation layer (`git_utils.py`, `git_helpers.py`,
`status_analyzer.py`) drives an external `git` executable.  We embed it by
parametrizing every operation over an abstract executor
`Exec σ = σ → Cmd → ProcResult × σ` standing for `_run_git`, and each
operation additionally returns the trace of argument vectors it issued, so
ordering and retry properties are expressible.
-/

namespace ReleaseTool

/-! ### Decimal digits: rendering and parsing -/

/-- Numeric value of a decimal character list, most significant digit first.
Models Python `int` applied to a digit string. -/
def decValue (cs : List Char) : Nat :=
  cs.foldl (fun a c => 10 * a + (c.toNat - 48)) 0

/-- Parses a nonempty all-digit character list; `none` otherwise. -/
def parseNat (cs : List Char) : Option Nat :=
  if !cs.isEmpty && cs.all Char.isDigit then some (decValue cs) else none

/-- Fuel-driven decimal rendering of a positive number (most significant
digit first); empty on zero. -/
def natToCharsAux : Nat → Nat → List Char
  | 0, _ => []
  | fuel + 1, n =>
    if n = 0 then [] else natToCharsAux fuel (n / 10) ++ [Nat.digitChar (n % 10)]

/-- Decimal rendering of a natural number, as produced by Python string
interpolation of an `int`. -/
def natToChars (n : Nat) : List Char :=
  if n = 0 then ['0'] else natToCharsAux (n + 1) n

/-! ### Version strings -/

/-- The value `packaging.version.Version` produces on the fragment we model:
the tuple of numeric release components (as written, at least one) and the
optional development number. -/
structure PyVersion where
  releaseParts : List Nat
  dev : Option Nat
deriving DecidableEq, Repr

/-- Splits a character list at every `'.'`; always returns at least one
(possibly empty) chunk, like Python `str.split(".")`. -/
def splitDots : List Char → List (List Char)
  | [] => [[]]
  | c :: cs =>
    if c = '.' then [] :: splitDots cs
    else
      match splitDots cs with
      | [] => [[c]]
      | h :: t => (c :: h) :: t

/-- Recognizes a `devN` chunk (the text after the final dot of a `.devN`
suffix) and returns `N`. -/
def devChunk? : List Char → Option Nat
  | c1 :: c2 :: c3 :: ds =>
    if c1 = 'd' ∧ c2 = 'e' ∧ c3 = 'v' then parseNat ds else none
  | _ => none

/-- Parses a dot-separated chunk list as numeric release components with an
optional trailing `devN` chunk. -/
def parseTail : List (List Char) → Option (List Nat × Option Nat)
  | [] => some ([], none)
  | [p] =>
    match devChunk? p with
    | some n => some ([], some n)
    | none =>
      match parseNat p with
      | some k => some ([k], none)
      | none => none
  | p :: q :: rest =>
    match parseNat p with
    | none => none
    | some k =>
      match parseTail (q :: rest) with
      | some (rel, dev) => some (k :: rel, dev)
      | none => none

/-- Embedding of `packaging.version.Version(s)` on the fragment used by the
repository: a nonempty dotted numeric release, optionally ending in
`.devN`.  `none` models `InvalidVersion`. -/
def parsePyVersion (s : String) : Option PyVersion :=
  match parseTail (splitDots s.data) with
  | some (rel, dev) => if rel = [] then none else some ⟨rel, dev⟩
  | none => none

/-- Models `_DEV_RE` from `stage4.py`: splits off a trailing `.dev<digits>`
suffix from the raw string, returning the raw text before it and the parsed
number; the whole string and `none` when no such suffix exists. -/
def stripDevSuffix (cs : List Char) : List Char × Option Nat :=
  match cs.reverse.takeWhile Char.isDigit, cs.reverse.dropWhile Char.isDigit with
  | d :: ds, 'v' :: 'e' :: 'd' :: '.' :: pre =>
    (pre.reverse, some (decValue ((d :: ds).reverse)))
  | _, _ => (cs, none)

/-- Pads the release tuple with zeros and keeps the first three components:
`release = list(v.release) + [0, 0]; major, minor, patch = release[:3]`. -/
def pad3 : List Nat → Nat × Nat × Nat
  | [] => (0, 0, 0)
  | [a] => (a, 0, 0)
  | [a, b] => (a, b, 0)
  | a :: b :: c :: _ => (a, b, c)

/-- Renders `f"{major}.{minor}.{patch}"`. -/
def fmtRel3 (a b c : Nat) : List Char :=
  natToChars a ++ '.' :: (natToChars b ++ '.' :: natToChars c)

/-- Errors raised by the version algebra (`ValueError` in the source). -/
inductive VErr where
  | invalidVersion (s : String)
  | unknownPart
deriving DecidableEq, Repr

/-- Embedding of `bump_dev` from `stage4.py`: validate the string, strip a
trailing `.devN` via `_DEV_RE`, and re-append `.dev` with the number
(defaulting to 0) incremented. -/
def bump_dev (s : String) : Except VErr String :=
  match parsePyVersion s with
  | none => .error (.invalidVersion s)
  | some _ =>
    let pn := stripDevSuffix s.data
    .ok ⟨pn.1 ++ '.' :: 'd' :: 'e' :: 'v' :: natToChars (pn.2.getD 0 + 1)⟩

/-- Embedding of `bump_semver` from `stage4.py`. -/
def bump_semver (s part : String) : Except VErr String :=
  match parsePyVersion s with
  | none => .error (.invalidVersion s)
  | some v =>
    let mmp := pad3 v.releaseParts
    if v.dev ≠ none ∧ part = "patch" then .ok ⟨fmtRel3 mmp.1 mmp.2.1 mmp.2.2⟩
    else if part = "patch" then .ok ⟨fmtRel3 mmp.1 mmp.2.1 (mmp.2.2 + 1)⟩
    else if part = "minor" then .ok ⟨fmtRel3 mmp.1 (mmp.2.1 + 1) 0⟩
    else if part = "major" then .ok ⟨fmtRel3 (mmp.1 + 1) 0 0⟩
    else .error .unknownPart

/-- Embedding of `bump_version` from `stage4.py`. -/
def bump_version (s part : String) : Except VErr String :=
  if part = "dev" then bump_dev s else bump_semver s part

/-- Embedding of `_next_dev_version` from `stage4.py`. -/
def _next_dev_version (s : String) : Except VErr String :=
  match parsePyVersion s with
  | none => .error (.invalidVersion s)
  | some v =>
    if v.dev ≠ none then bump_dev s
    else
      let mmp := pad3 v.releaseParts
      .ok ⟨fmtRel3 mmp.1 mmp.2.1 (mmp.2.2 + 1) ++ '.' :: 'd' :: 'e' :: 'v' :: ['0']⟩

/-- The two version shapes the specification documents:
`MAJOR.MINOR.PATCH` and `MAJOR.MINOR.PATCH.devN`.  This definition follows
the spec's words, for comparison with the parser embedded from the code. -/
def specAcceptedShape (s : String) : Bool :=
  let numeric := fun (l : List Char) => !l.isEmpty && l.all Char.isDigit
  match splitDots s.data with
  | [a, b, c] => numeric a && numeric b && numeric c
  | [a, b, c, d] =>
    numeric a && numeric b && numeric c &&
      (match d with
       | 'd' :: 'e' :: 'v' :: ds => numeric ds
       | _ => false)
  | _ => false

/-! ### Numeric ordering on versions (PEP 440 restricted to the fragment) -/

/-- Compares release tuples numerically, treating missing trailing
components as zero. -/
def relCompare : List Nat → List Nat → Ordering
  | [], bs => if bs.all (· = 0) then .eq else .lt
  | a :: as_, [] => if (a :: as_).all (· = 0) then .eq else .gt
  | a :: as_, b :: bs =>
    if a < b then .lt else if b < a then .gt else relCompare as_ bs

/-- Strict numeric order on parsed versions: release tuples compared with
zero padding; on equal releases a `.devN` version precedes the plain
release, and dev numbers compare numerically. -/
def verLtB (u v : PyVersion) : Bool :=
  match relCompare u.releaseParts v.releaseParts with
  | .lt => true
  | .gt => false
  | .eq =>
    match u.dev, v.dev with
    | some m, some n => m < n
    | some _, none => true
    | none, _ => false

/-! ### The git operation layer

`_run_git` invokes the external `git` executable.  We model it as an
abstract executor over an opaque repository state `σ`: given the state and
the argument vector after `git`, it returns the completed process and the
next state.  Each embedded operation additionally returns the list of
argument vectors it issued, in order, so that sequencing and retry
behaviour are provable. -/

/-- Outcome of one external command: exit status and captured output
(`none` models Python's `None` when output was not captured). -/
structure ProcResult where
  returncode : Int
  stdout : Option String
  stderr : Option String
deriving DecidableEq, Repr

/-- One git argument vector (the list after `git`). -/
abbrev Cmd := List String

/-- Abstract executor standing for `_run_git` in a fixed repository. -/
abbrev Exec (σ : Type) := σ → Cmd → ProcResult × σ

/-- Errors of the git layer: `GitError(msg)` where `msg` may be `None`, or
a `ValueError` from `int()` conversion. -/
inductive PyErr where
  | gitError (msg : Option String)
  | valueError
deriving DecidableEq, Repr

/-- Python `a or b` on optional strings (empty strings are falsy). -/
def pyOr (a b : Option String) : Option String :=
  match a with
  | some x => if x = "" then b else some x
  | none => b

/-- Whitespace characters recognized by Python `str.strip()` (the subset
relevant to git output). -/
def isWs (c : Char) : Bool :=
  c = ' ' || c = '\n' || c = '\t' || c = '\r'

/-- Models Python `str.strip()`. -/
def pyStrip (s : String) : String :=
  ⟨((s.data.dropWhile isWs).reverse.dropWhile isWs).reverse⟩

/-- Substring test on character lists. -/
def isSubstr (needle hay : List Char) : Bool :=
  hay.tails.any (fun t => needle.isPrefixOf t)

/-- Models Python `needle in hay` on strings. -/
def strIn (needle hay : String) : Bool :=
  isSubstr needle.data hay.data

/-- Models Python `int(s)` on a stripped token: optional minus sign then
digits; `none` models `ValueError`. -/
def pyInt? (cs : List Char) : Option Int :=
  match cs with
  | '-' :: rest => (parseNat rest).map (fun n => -(n : Int))
  | l => (parseNat l).map (fun n => (n : Int))

/-- Splits on whitespace runs discarding empty tokens, like Python
`str.split()` with no argument; `acc` holds the current token reversed. -/
def splitWsAux : List Char → List Char → List (List Char)
  | [], acc => if acc = [] then [] else [acc.reverse]
  | c :: cs, acc =>
    if isWs c then
      if acc = [] then splitWsAux cs [] else acc.reverse :: splitWsAux cs []
    else splitWsAux cs (c :: acc)

/-- Models Python `str.split()` (no argument). -/
def splitWs (cs : List Char) : List (List Char) :=
  splitWsAux cs []

/-- First line of a string: Python `s.split("\n")[0]`. -/
def firstLine (s : String) : String :=
  ⟨s.data.takeWhile (fun c => c ≠ '\n')⟩

/-- Text before the first colon: Python `s.split(":", 1)[0]`. -/
def refOfLine (s : String) : String :=
  ⟨s.data.takeWhile (fun c => c ≠ ':')⟩

/-- The known phrasings of a benign "nothing to commit" failure, matched by
`commit_all` in `git_utils.py`. -/
def nothingToCommit (out : String) : Bool :=
  strIn "nothing to commit" out || strIn "nothing added to commit" out

/-- The known phrasings of a missing-upstream push failure, matched by
`_push_repo` in `git_utils.py`. -/
def upstreamPhrase (e : String) : Bool :=
  strIn "set upstream" e || strIn "--set-upstream" e || strIn "have no upstream" e

/-- Embedding of `_get_current_branch` from `git_utils.py`. -/
def _get_current_branch {σ} (exec : Exec σ) (s0 : σ) :
    Except PyErr String × σ × List Cmd :=
  let r := exec s0 ["rev-parse", "--abbrev-ref", "HEAD"]
  if r.1.returncode ≠ 0 then (.error (.gitError r.1.stderr), r.2, [["rev-parse", "--abbrev-ref", "HEAD"]])
  else (.ok (pyStrip (r.1.stdout.getD "")), r.2, [["rev-parse", "--abbrev-ref", "HEAD"]])

/-- Embedding of `_push_repo` from `git_utils.py`: plain push, with one
`--set-upstream` retry when the failure text matches the missing-upstream
phrasing. -/
def _push_repo {σ} (exec : Exec σ) (remote : String) (s0 : σ) :
    Except PyErr Unit × σ × List Cmd :=
  let r := exec s0 ["push", remote]
  if r.1.returncode = 0 then (.ok (), r.2, [["push", remote]])
  else
    let errText := r.1.stderr.getD ""
    if upstreamPhrase errText = true then
      let rb := exec r.2 ["rev-parse", "--abbrev-ref", "HEAD"]
      if rb.1.returncode ≠ 0 then
        (.error (.gitError rb.1.stderr), rb.2,
          [["push", remote], ["rev-parse", "--abbrev-ref", "HEAD"]])
      else
        let branch := pyStrip (rb.1.stdout.getD "")
        let fallback : Cmd := ["push", "--set-upstream", remote, branch]
        let rf := exec rb.2 fallback
        if rf.1.returncode ≠ 0 then
          (.error (.gitError (pyOr rf.1.stderr (some errText))), rf.2,
            [["push", remote], ["rev-parse", "--abbrev-ref", "HEAD"], fallback])
        else
          (.ok (), rf.2,
            [["push", remote], ["rev-parse", "--abbrev-ref", "HEAD"], fallback])
    else (.error (.gitError (some errText)), r.2, [["push", remote]])

/-- Embedding of `commit_all` from `git_utils.py`: `git add -A`, then
`git commit -m`, classifying a "nothing to commit" failure as benign, then
an optional push through `_push_repo`. -/
def commit_all {σ} (exec : Exec σ) (commit_message remote : String)
    (push dry_run : Bool) (s0 : σ) : Except PyErr Unit × σ × List Cmd :=
  if dry_run then (.ok (), s0, [])
  else
    let ra := exec s0 ["add", "-A"]
    if ra.1.returncode ≠ 0 then (.error (.gitError ra.1.stderr), ra.2, [["add", "-A"]])
    else
      let rc := exec ra.2 ["commit", "-m", commit_message]
      let tr : List Cmd := [["add", "-A"], ["commit", "-m", commit_message]]
      let proceed : Bool :=
        if rc.1.returncode ≠ 0 then
          nothingToCommit ((rc.1.stdout.getD "") ++ (rc.1.stderr.getD ""))
        else true
      if proceed then
        if push then
          let rp := _push_repo exec remote rc.2
          (rp.1, rp.2.1, tr ++ rp.2.2)
        else (.ok (), rc.2, tr)
      else (.error (.gitError (pyOr rc.1.stderr rc.1.stdout)), rc.2, tr)

/-- Embedding of `get_last_tag` from `git_utils.py`: `none` when
`git describe` fails or prints nothing. -/
def get_last_tag {σ} (exec : Exec σ) (s0 : σ) :
    Option String × σ × List Cmd :=
  let r := exec s0 ["describe", "--tags", "--abbrev=0"]
  if r.1.returncode ≠ 0 then (none, r.2, [["describe", "--tags", "--abbrev=0"]])
  else
    let t := pyStrip (r.1.stdout.getD "")
    (if t = "" then none else some t, r.2, [["describe", "--tags", "--abbrev=0"]])

/-- Embedding of `has_changes_since_last_tag` from `git_utils.py`. -/
def has_changes_since_last_tag {σ} (exec : Exec σ) (s0 : σ) :
    Except PyErr Bool × σ × List Cmd :=
  match get_last_tag exec s0 with
  | (none, s1, tr) => (.ok true, s1, tr)
  | (some tag, s1, tr) =>
    let cmd : Cmd := ["rev-list", tag ++ "..HEAD", "--count"]
    let r := exec s1 cmd
    if r.1.returncode ≠ 0 then (.error (.gitError r.1.stderr), r.2, tr ++ [cmd])
    else
      let cnt := pyStrip (r.1.stdout.getD "")
      match pyInt? (if cnt = "" then "0" else cnt).data with
      | some n => (.ok (decide (0 < n)), r.2, tr ++ [cmd])
      | none => (.error .valueError, r.2, tr ++ [cmd])

/-- Embedding of `calc_ahead_behind` from `git_helpers.py`. -/
def calc_ahead_behind {σ} (exec : Exec σ) (branch remote_ref : String) (s0 : σ) :
    Except PyErr (Int × Int) × σ × List Cmd :=
  let cmd : Cmd := ["rev-list", "--left-right", "--count", branch ++ "..." ++ remote_ref]
  let r := exec s0 cmd
  let output := pyStrip (r.1.stdout.getD "")
  if r.1.returncode ≠ 0 ∨ output = "" then (.ok (0, 0), r.2, [cmd])
  else
    match splitWs output.data with
    | [l, rr] =>
      match pyInt? l, pyInt? rr with
      | some a, some b => (.ok (a, b), r.2, [cmd])
      | _, _ => (.error .valueError, r.2, [cmd])
    | [l] =>
      match pyInt? l with
      | some a => (.ok (a, 0), r.2, [cmd])
      | none => (.error .valueError, r.2, [cmd])
    | _ => (.ok (0, 0), r.2, [cmd])

/-- Embedding of `remote_branch_exists` from `git_helpers.py`. -/
def remote_branch_exists {σ} (exec : Exec σ) (remote branch : String) (s0 : σ) :
    Bool × σ × List Cmd :=
  let cmd : Cmd := ["rev-parse", "--verify", remote ++ "/" ++ branch]
  let r := exec s0 cmd
  (r.1.returncode = 0, r.2, [cmd])

/-- Embedding of `get_uncommitted_changes` from `git_utils.py`. -/
def get_uncommitted_changes {σ} (exec : Exec σ) (s0 : σ) :
    Except PyErr String × σ × List Cmd :=
  let r := exec s0 ["status", "--porcelain"]
  if r.1.returncode ≠ 0 then (.error (.gitError r.1.stderr), r.2, [["status", "--porcelain"]])
  else (.ok (pyStrip (r.1.stdout.getD "")), r.2, [["status", "--porcelain"]])

/-- Embedding of `has_uncommitted_changes` from `git_utils.py`. -/
def has_uncommitted_changes {σ} (exec : Exec σ) (s0 : σ) :
    Except PyErr Bool × σ × List Cmd :=
  match get_uncommitted_changes exec s0 with
  | (.ok out, s1, tr) => (.ok (out ≠ ""), s1, tr)
  | (.error e, s1, tr) => (.error e, s1, tr)

/-- Per-package status record (`RepoStatus` in `status_analyzer.py`). -/
structure RepoStatus where
  ahead : Int
  behind : Int
  uncommitted : Bool
deriving DecidableEq, Repr

/-- Embedding of `analyze_repo_status` from `status_analyzer.py`. -/
def analyze_repo_status {σ} (exec : Exec σ) (branch remote : String) (s0 : σ) :
    Except PyErr RepoStatus × σ × List Cmd :=
  let re := remote_branch_exists exec remote branch s0
  let abr :=
    if re.1 then calc_ahead_behind exec branch (remote ++ "/" ++ branch) re.2.1
    else (.ok ((0 : Int), (0 : Int)), re.2.1, ([] : List Cmd))
  match abr with
  | (.error e, s2, tr2) => (.error e, s2, re.2.2 ++ tr2)
  | (.ok ab, s2, tr2) =>
    match has_uncommitted_changes exec s2 with
    | (.ok u, s3, tr3) =>
      (.ok ⟨ab.1, ab.2, u⟩, s3, re.2.2 ++ tr2 ++ tr3)
    | (.error e, s3, tr3) => (.error e, s3, re.2.2 ++ tr2 ++ tr3)

/-! ### The stash transaction (`temporary_stash` in `git_helpers.py`) -/

/-- The risky operation executed inside the transaction: it transforms the
repository state, finishes normally (`ok`) or raises (`error`), and issues
its own git commands. -/
abbrev Body (σ E : Type) := σ → Except E Unit × σ × List Cmd

/-- The `git stash push` argument vector built by `temporary_stash`. -/
def stash_push_args (include_untracked : Bool) (message : String) : Cmd :=
  ["stash", "push",
    if include_untracked then "--include-untracked" else "--keep-index",
    "-m", message]

/-- The `finally` block of `temporary_stash`: pop, inspect conflicts,
classify, and drop the top stash entry when it matches the label.  Returns
the `kept` flag. -/
def stash_finalize {σ} (exec : Exec σ) (message : String) (keep : Bool) (s0 : σ) :
    Bool × σ × List Cmd :=
  let rp := exec s0 ["stash", "pop"]
  let rd := exec rp.2 ["diff", "--name-only", "--diff-filter=U"]
  let conflicts := pyStrip (rd.1.stdout.getD "")
  let base : List Cmd := [["stash", "pop"], ["diff", "--name-only", "--diff-filter=U"]]
  if conflicts ≠ "" ∨ keep = true then (true, rd.2, base)
  else
    let rl := exec rd.2 ["stash", "list"]
    let fl? : Option String :=
      match rl.1.stdout with
      | some out => if out ≠ "" then some (firstLine out) else none
      | none => none
    match fl? with
    | some fl =>
      if fl ≠ "" ∧ strIn message fl = true then
        let ref := refOfLine fl
        let rdrop := exec rl.2 ["stash", "drop", ref]
        (false, rdrop.2, base ++ [["stash", "list"], ["stash", "drop", ref]])
      else (false, rl.2, base ++ [["stash", "list"]])
    | none => (false, rl.2, base ++ [["stash", "list"]])

/-- Embedding of the `temporary_stash` context manager: when enabled, stash
before the body and unconditionally pop afterwards (normal return and
exception alike); a body exception propagates after the pop. -/
def temporary_stash {σ E} (exec : Exec σ) (enabled include_untracked : Bool)
    (message : String) (keep : Bool) (body : Body σ E) (s0 : σ) :
    Except E Bool × σ × List Cmd :=
  if enabled then
    let rpush := exec s0 (stash_push_args include_untracked message)
    let rb := body rpush.2
    let fin := stash_finalize exec message keep rb.2.1
    (rb.1.map (fun _ => fin.1), fin.2.1,
      stash_push_args include_untracked message :: rb.2.2 ++ fin.2.2)
  else
    let rb := body s0
    (rb.1.map (fun _ => false), rb.2.1, rb.2.2)

/-! ### Scripted executors used as concrete test repositories

Each script ignores the argument vector and answers by call number, playing
the role of one concrete repository state sequence. -/

/-- A body that performs no git commands and returns normally. -/
def noBody : Body Nat Unit := fun s => (Except.ok (), s, [])

/-- Script: `add` succeeds, `commit` exits 1 with the benign
"nothing to commit" text. -/
def commitNothingScript : Exec Nat := fun n _ =>
  (match n with
   | 0 => ⟨0, none, none⟩
   | 1 => ⟨1, some "On branch main\nnothing to commit, working tree clean", some ""⟩
   | _ => ⟨0, some "", some ""⟩, n + 1)

/-- Script: plain push fails with the missing-upstream phrasing, branch
resolution succeeds, the `--set-upstream` retry succeeds. -/
def pushUpstreamScript : Exec Nat := fun n _ =>
  (match n with
   | 0 => ⟨128, some "", some "fatal: ... use git push --set-upstream origin main"⟩
   | 1 => ⟨0, some "main\n", some ""⟩
   | _ => ⟨0, some "", some ""⟩, n + 1)

/-- Script: the first command fails (absent remote reference), later
commands succeed with a dirty `status --porcelain` output. -/
def absentRemoteScript : Exec Nat := fun n _ =>
  (match n with
   | 0 => ⟨128, some "", some "fatal: Needed a single revision"⟩
   | _ => ⟨0, some " M x.py\n", some ""⟩, n + 1)

/-- Script: `git describe` always fails (repository has no tag). -/
def noTagScript : Exec Nat := fun n _ =>
  (⟨128, some "", some "fatal: No names found, cannot describe anything."⟩, n + 1)

/-- Script: stash push/pop succeed, no conflicts, and the stash list's top
entry does not carry the transaction label while its second entry does. -/
def stashNoDropScript : Exec Nat := fun n _ =>
  (match n with
   | 0 => ⟨0, none, none⟩
   | 1 => ⟨0, none, none⟩
   | 2 => ⟨0, some "", some ""⟩
   | 3 => ⟨0, some "s0: other\ns1: On main: relmsg", some ""⟩
   | _ => ⟨0, some "", some ""⟩, n + 1)

/-- Script: stash push/pop succeed and the pop leaves an unmerged path. -/
def stashConflictScript : Exec Nat := fun n _ =>
  (match n with
   | 0 => ⟨0, none, none⟩
   | 1 => ⟨1, some "CONFLICT", some ""⟩
   | 2 => ⟨0, some "pkg/core.py\n", some ""⟩
   | _ => ⟨0, some "", some ""⟩, n + 1)

/-! ## Lemmas: decimal rendering round-trips through parsing -/

theorem decValue_append_digit (l : List Char) (c : Char) :
    decValue (l ++ [c]) = 10 * decValue l + (c.toNat - 48) := by
  simp [decValue, List.foldl_append]

theorem digitChar_isDigit {d : Nat} (h : d < 10) :
    (Nat.digitChar d).isDigit = true ∧ (Nat.digitChar d).toNat - 48 = d := by
  interval_cases d <;> exact ⟨rfl, rfl⟩

theorem natToCharsAux_all_digit :
    ∀ fuel n, (natToCharsAux fuel n).all Char.isDigit = true := by
  intro fuel
  induction fuel with
  | zero => intro n; rfl
  | succ f ih =>
    intro n
    by_cases h : n = 0
    · simp [natToCharsAux, h]
    · simp only [natToCharsAux, if_neg h, List.all_append, ih]
      simp [(digitChar_isDigit (Nat.mod_lt n (by norm_num))).1]

theorem decValue_natToCharsAux :
    ∀ fuel n, n ≤ fuel → decValue (natToCharsAux fuel n) = n := by
  intro fuel
  induction fuel with
  | zero => intro n hn; interval_cases n; rfl
  | succ f ih =>
    intro n hn
    by_cases h : n = 0
    · simp [natToCharsAux, h, decValue]
    · have hdiv : n / 10 ≤ f := by
        have : n / 10 < n := Nat.div_lt_self (Nat.pos_of_ne_zero h) (by norm_num)
        omega
      rw [natToCharsAux, if_neg h, decValue_append_digit, ih _ hdiv,
        (digitChar_isDigit (Nat.mod_lt n (by omega))).2]
      omega

theorem natToCharsAux_ne_nil {fuel n : Nat} (hn : 0 < n) (hf : 0 < fuel) :
    natToCharsAux fuel n ≠ [] := by
  obtain ⟨f, rfl⟩ : ∃ f, fuel = f + 1 := ⟨fuel - 1, by omega⟩
  rw [natToCharsAux, if_neg (by omega)]
  simp

theorem natToChars_all_digit (n : Nat) :
    (natToChars n).all Char.isDigit = true := by
  by_cases h : n = 0
  · simp [natToChars, h]
  · simp [natToChars, h, natToCharsAux_all_digit]

theorem natToChars_ne_nil (n : Nat) : natToChars n ≠ [] := by
  by_cases h : n = 0
  · simp [natToChars, h]
  · simp only [natToChars, if_neg h]
    exact natToCharsAux_ne_nil (Nat.pos_of_ne_zero h) (by omega)

theorem decValue_natToChars (n : Nat) : decValue (natToChars n) = n := by
  by_cases h : n = 0
  · simp [natToChars, h, decValue]
  · simp only [natToChars, if_neg h]
    exact decValue_natToCharsAux (n + 1) n (by omega)

theorem parseNat_natToChars (n : Nat) : parseNat (natToChars n) = some n := by
  rw [parseNat, if_pos, decValue_natToChars]
  simp [natToChars_all_digit, List.isEmpty_iff, natToChars_ne_nil]

theorem parseNat_eq_some {cs : List Char} {k : Nat} (h : parseNat cs = some k) :
    cs ≠ [] ∧ cs.all Char.isDigit = true ∧ decValue cs = k := by
  rw [parseNat] at h
  split at h
  · rename_i hc
    simp only [Bool.and_eq_true, Bool.not_eq_true', List.isEmpty_eq_false] at hc
    exact ⟨by simpa [List.isEmpty_iff] using hc.1, hc.2, by injection h⟩
  · exact absurd h (by simp)

theorem parseNat_of_digits {cs : List Char} (h1 : cs ≠ [])
    (h2 : cs.all Char.isDigit = true) : parseNat cs = some (decValue cs) := by
  rw [parseNat, if_pos]
  simp [h2, List.isEmpty_iff, h1]

theorem isDigit_ne (c : Char) (h : c.isDigit = true) : c ≠ '.' ∧ c ≠ 'd' := by
  refine ⟨fun hc => ?_, fun hc => ?_⟩ <;> subst hc <;> exact absurd h (by decide)

theorem dot_not_mem_of_all_digit {cs : List Char}
    (h : cs.all Char.isDigit = true) : '.' ∉ cs := by
  intro hmem
  have := (List.all_eq_true.mp h) _ hmem
  exact absurd this (by decide)

theorem dot_not_mem_natToChars (n : Nat) : '.' ∉ natToChars n :=
  dot_not_mem_of_all_digit (natToChars_all_digit n)

/-! ## Lemmas: splitting at dots -/

theorem splitDots_ne_nil (cs : List Char) : splitDots cs ≠ [] := by
  induction cs with
  | nil => simp [splitDots]
  | cons c cs ih =>
    rw [splitDots]
    split
    · simp
    · split
      · simp
      · simp

theorem splitDots_append_dot {xs : List Char} (h : '.' ∉ xs) (rest : List Char) :
    splitDots (xs ++ '.' :: rest) = xs :: splitDots rest := by
  induction xs with
  | nil => simp [splitDots]
  | cons x xs ih =>
    have hx : x ≠ '.' := fun hc => h (hc ▸ List.mem_cons_self x xs)
    have hxs : '.' ∉ xs := fun hc => h (List.mem_cons_of_mem x hc)
    rw [List.cons_append, splitDots, if_neg hx, ih hxs]

theorem splitDots_no_dot {xs : List Char} (h : '.' ∉ xs) :
    splitDots xs = [xs] := by
  induction xs with
  | nil => rfl
  | cons x xs ih =>
    have hx : x ≠ '.' := fun hc => h (hc ▸ List.mem_cons_self x xs)
    have hxs : '.' ∉ xs := fun hc => h (List.mem_cons_of_mem x hc)
    rw [splitDots, if_neg hx, ih hxs]

/-- Inverse of `splitDots`: interleaves `'.'` between chunks. -/
def joinDots : List (List Char) → List Char
  | [] => []
  | [x] => x
  | x :: xs => x ++ '.' :: joinDots xs

theorem joinDots_cons_cons (x y : List Char) (t : List (List Char)) :
    joinDots (x :: y :: t) = x ++ '.' :: joinDots (y :: t) := rfl

theorem joinDots_cons_head (c : Char) (h : List Char) (t : List (List Char)) :
    joinDots ((c :: h) :: t) = c :: joinDots (h :: t) := by
  cases t with
  | nil => rfl
  | cons y t => rw [joinDots_cons_cons, joinDots_cons_cons]; rfl

theorem joinDots_splitDots (cs : List Char) : joinDots (splitDots cs) = cs := by
  induction cs with
  | nil => rfl
  | cons c cs ih =>
    rw [splitDots]
    by_cases hc : c = '.'
    · subst hc
      rw [if_pos rfl]
      obtain ⟨h, t, he⟩ : ∃ h t, splitDots cs = h :: t := by
        cases hs : splitDots cs with
        | nil => exact absurd hs (splitDots_ne_nil cs)
        | cons h t => exact ⟨h, t, rfl⟩
      rw [he] at ih ⊢
      rw [joinDots_cons_cons, ih]
      rfl
    · rw [if_neg hc]
      obtain ⟨h, t, he⟩ : ∃ h t, splitDots cs = h :: t := by
        cases hs : splitDots cs with
        | nil => exact absurd hs (splitDots_ne_nil cs)
        | cons h t => exact ⟨h, t, rfl⟩
      rw [he] at ih ⊢
      rw [joinDots_cons_head, ih]

theorem joinDots_concat {front : List (List Char)} (h : front ≠ []) (L : List Char) :
    joinDots (front ++ [L]) = joinDots front ++ '.' :: L := by
  induction front with
  | nil => exact absurd rfl h
  | cons x xs ih =>
    cases xs with
    | nil => rfl
    | cons y t =>
      have ih' := ih (by simp)
      rw [List.cons_append] at ih'
      rw [List.cons_append, List.cons_append, joinDots_cons_cons, ih',
        joinDots_cons_cons]
      simp [List.append_assoc]

theorem splitDots_joinDots_append {front : List (List Char)} (hne : front ≠ [])
    (hnd : ∀ ch ∈ front, '.' ∉ ch) (t : List Char) :
    splitDots (joinDots front ++ '.' :: t) = front ++ splitDots t := by
  induction front with
  | nil => exact absurd rfl hne
  | cons x xs ih =>
    cases xs with
    | nil =>
      have : joinDots [x] = x := rfl
      rw [this, splitDots_append_dot (hnd x (by simp)) t]
      rfl
    | cons y ys =>
      rw [joinDots_cons_cons, List.append_assoc, List.cons_append,
        splitDots_append_dot (hnd x (by simp))]
      rw [ih (by simp) (fun ch hch => hnd ch (List.mem_cons_of_mem x hch))]
      rfl

theorem splitDots_joinDots {front : List (List Char)} (hne : front ≠ [])
    (hnd : ∀ ch ∈ front, '.' ∉ ch) :
    splitDots (joinDots front) = front := by
  induction front with
  | nil => exact absurd rfl hne
  | cons x xs ih =>
    cases xs with
    | nil => exact splitDots_no_dot (hnd x (by simp))
    | cons y ys =>
      rw [joinDots_cons_cons, splitDots_append_dot (hnd x (by simp)),
        ih (by simp) (fun ch hch => hnd ch (List.mem_cons_of_mem x hch))]

/-! ## Lemmas: parsing chunk lists -/

theorem devChunk?_eq_some {p : List Char} {n : Nat} (h : devChunk? p = some n) :
    ∃ ds, p = 'd' :: 'e' :: 'v' :: ds ∧ parseNat ds = some n := by
  rcases p with _ | ⟨c1, _ | ⟨c2, _ | ⟨c3, ds⟩⟩⟩
  · exact absurd h (by simp [devChunk?])
  · exact absurd h (by simp [devChunk?])
  · exact absurd h (by simp [devChunk?])
  · rw [devChunk?] at h
    split at h
    · rename_i hc
      obtain ⟨rfl, rfl, rfl⟩ := hc
      exact ⟨ds, rfl, h⟩
    · exact absurd h (by simp)

theorem devChunk?_dev (ds : List Char) :
    devChunk? ('d' :: 'e' :: 'v' :: ds) = parseNat ds := by
  rw [devChunk?, if_pos ⟨rfl, rfl, rfl⟩]

theorem devChunk?_of_digit {cs : List Char} (h2 : cs.all Char.isDigit = true) :
    devChunk? cs = none := by
  rcases cs with _ | ⟨c1, _ | ⟨c2, _ | ⟨c3, ds⟩⟩⟩
  · rfl
  · rfl
  · rfl
  · have hd : c1.isDigit = true := (List.all_eq_true.mp h2) c1 (by simp)
    rw [devChunk?, if_neg]
    rintro ⟨hc, -, -⟩
    exact (isDigit_ne c1 hd).2 hc

theorem parseTail_singleton_inv {p : List Char} {rel : List Nat} {dev : Option Nat}
    (h : parseTail [p] = some (rel, dev)) :
    (∃ n, devChunk? p = some n ∧ rel = [] ∧ dev = some n) ∨
      (∃ k, parseNat p = some k ∧ rel = [k] ∧ dev = none) := by
  rw [parseTail] at h
  cases hdc : devChunk? p with
  | some n =>
    rw [hdc] at h
    obtain ⟨rfl, rfl⟩ : [] = rel ∧ some n = dev := by
      injection h with h'; injection h' with h1 h2; exact ⟨h1, h2⟩
    exact Or.inl ⟨n, rfl, rfl, rfl⟩
  | none =>
    rw [hdc] at h
    cases hpn : parseNat p with
    | some k =>
      rw [hpn] at h
      obtain ⟨rfl, rfl⟩ : [k] = rel ∧ (none : Option Nat) = dev := by
        injection h with h'; injection h' with h1 h2; exact ⟨h1, h2⟩
      exact Or.inr ⟨k, rfl, rfl, rfl⟩
    | none => rw [hpn] at h; exact absurd h (by simp)

theorem parseTail_cons_cons_inv {p q : List Char} {rest : List (List Char)}
    {rel : List Nat} {dev : Option Nat}
    (h : parseTail (p :: q :: rest) = some (rel, dev)) :
    ∃ k rel', parseNat p = some k ∧ parseTail (q :: rest) = some (rel', dev) ∧
      rel = k :: rel' := by
  rw [parseTail] at h
  cases hpn : parseNat p with
  | none => rw [hpn] at h; exact absurd h (by simp)
  | some k =>
    rw [hpn] at h
    cases hpt : parseTail (q :: rest) with
    | none => rw [hpt] at h; exact absurd h (by simp)
    | some rd =>
      rw [hpt] at h
      obtain ⟨rel', dev'⟩ := rd
      simp only [Option.some.injEq, Prod.mk.injEq] at h
      obtain ⟨rfl, rfl⟩ := h
      exact ⟨k, rel', rfl, rfl, rfl⟩

theorem parseTail_cons_num {p : List Char} {k : Nat} {front : List (List Char)}
    {rel : List Nat} {dev : Option Nat}
    (hp : parseNat p = some k) (hf : parseTail front = some (rel, dev)) :
    parseTail (p :: front) = some (k :: rel, dev) := by
  cases front with
  | nil =>
    rw [parseTail] at hf
    simp only [Option.some.injEq, Prod.mk.injEq] at hf
    obtain ⟨rfl, rfl⟩ := hf
    have hd := devChunk?_of_digit (parseNat_eq_some hp).2.1
    rw [parseTail, hd, hp]
  | cons q rest =>
    rw [parseTail, hp, hf]

theorem parseTail_all_digit :
    ∀ {chunks : List (List Char)} {rel : List Nat},
      parseTail chunks = some (rel, none) →
      ∀ ch ∈ chunks, ch ≠ [] ∧ ch.all Char.isDigit = true := by
  intro chunks
  induction chunks with
  | nil => intro rel h ch hch; simp at hch
  | cons p rest ih =>
    intro rel h ch hch
    cases rest with
    | nil =>
      rcases parseTail_singleton_inv h with ⟨n, -, -, hdev⟩ | ⟨k, hk, -, -⟩
      · exact absurd hdev.symm (by simp)
      · have := parseNat_eq_some hk
        rcases List.mem_singleton.mp hch with rfl
        exact ⟨this.1, this.2.1⟩
    | cons q rest' =>
      obtain ⟨k, rel', hk, htail, rfl⟩ := parseTail_cons_cons_inv h
      rcases List.mem_cons.mp hch with rfl | hmem
      · have := parseNat_eq_some hk
        exact ⟨this.1, this.2.1⟩
      · exact ih htail ch hmem

theorem parseTail_dev_decomp :
    ∀ {chunks : List (List Char)} {rel : List Nat} {n : Nat},
      parseTail chunks = some (rel, some n) →
      ∃ front ds, chunks = front ++ ['d' :: 'e' :: 'v' :: ds] ∧
        parseNat ds = some n ∧ parseTail front = some (rel, none) := by
  intro chunks
  induction chunks with
  | nil => intro rel n h; rw [parseTail] at h; exact absurd h (by simp)
  | cons p rest ih =>
    intro rel n h
    cases rest with
    | nil =>
      rcases parseTail_singleton_inv h with ⟨m, hdc, rfl, hdev⟩ | ⟨k, -, -, hdev⟩
      · obtain rfl : m = n := by injection hdev with h'; exact h'.symm
        obtain ⟨ds, rfl, hds⟩ := devChunk?_eq_some hdc
        exact ⟨[], ds, rfl, hds, rfl⟩
      · exact absurd hdev (by simp)
    | cons q rest' =>
      obtain ⟨k, rel', hk, htail, rfl⟩ := parseTail_cons_cons_inv h
      obtain ⟨front, ds, heq, hds, hfront⟩ := ih htail
      exact ⟨p :: front, ds, by rw [List.cons_append, heq], hds,
        parseTail_cons_num hk hfront⟩

theorem parseTail_append_dev :
    ∀ {front : List (List Char)} {rel : List Nat} {ds : List Char} {n : Nat},
      parseTail front = some (rel, none) → parseNat ds = some n →
      parseTail (front ++ ['d' :: 'e' :: 'v' :: ds]) = some (rel, some n) := by
  intro front
  induction front with
  | nil =>
    intro rel ds n hf hds
    rw [parseTail] at hf
    simp only [Option.some.injEq, Prod.mk.injEq] at hf
    obtain ⟨rfl, -⟩ := hf
    rw [List.nil_append, parseTail, devChunk?_dev, hds]
  | cons p rest ih =>
    intro rel ds n hf hds
    cases rest with
    | nil =>
      rcases parseTail_singleton_inv hf with ⟨m, -, -, hdev⟩ | ⟨k, hk, rfl, -⟩
      · exact absurd hdev.symm (by simp)
      · have h0 : parseTail ([] ++ ['d' :: 'e' :: 'v' :: ds]) = some ([], some n) := by
          rw [List.nil_append, parseTail, devChunk?_dev, hds]
        rw [List.cons_append]
        exact parseTail_cons_num hk (by simpa using h0)
    | cons q rest' =>
      obtain ⟨k, rel', hk, htail, rfl⟩ := parseTail_cons_cons_inv hf
      rw [List.cons_append]
      exact parseTail_cons_num hk (ih htail hds)

/-! ## Lemmas: stripping the raw `.devN` suffix -/

theorem takeWhile_append_all {α : Type} {p : α → Bool} {l : List α}
    (h : ∀ a ∈ l, p a = true) (rest : List α) :
    (l ++ rest).takeWhile p = l ++ rest.takeWhile p := by
  induction l with
  | nil => simp
  | cons x xs ih =>
    rw [List.cons_append, List.takeWhile_cons, if_pos (h x (by simp)),
      ih (fun a ha => h a (List.mem_cons_of_mem x ha))]
    rfl

theorem dropWhile_append_all {α : Type} {p : α → Bool} {l : List α}
    (h : ∀ a ∈ l, p a = true) (rest : List α) :
    (l ++ rest).dropWhile p = rest.dropWhile p := by
  induction l with
  | nil => simp
  | cons x xs ih =>
    rw [List.cons_append, List.dropWhile_cons, if_pos (h x (by simp))]
    exact ih (fun a ha => h a (List.mem_cons_of_mem x ha))

theorem takeWhile_all {α : Type} {p : α → Bool} {l : List α}
    (h : ∀ a ∈ l, p a = true) : l.takeWhile p = l := by
  have := takeWhile_append_all h ([] : List α)
  simpa using this

theorem dropWhile_all {α : Type} {p : α → Bool} {l : List α}
    (h : ∀ a ∈ l, p a = true) : l.dropWhile p = [] := by
  have := dropWhile_append_all h ([] : List α)
  simpa using this

theorem stripDevSuffix_append_dev {xs ds : List Char} (h1 : ds ≠ [])
    (h2 : ds.all Char.isDigit = true) :
    stripDevSuffix (xs ++ '.' :: 'd' :: 'e' :: 'v' :: ds) = (xs, some (decValue ds)) := by
  have hall : ∀ a ∈ ds.reverse, a.isDigit = true := by
    intro a ha
    exact (List.all_eq_true.mp h2) a (List.mem_reverse.mp ha)
  have hrev : (xs ++ '.' :: 'd' :: 'e' :: 'v' :: ds).reverse
      = ds.reverse ++ 'v' :: 'e' :: 'd' :: '.' :: xs.reverse := by
    simp [List.reverse_append]
  have htake : (ds.reverse ++ 'v' :: 'e' :: 'd' :: '.' :: xs.reverse).takeWhile Char.isDigit
      = ds.reverse := by
    rw [takeWhile_append_all hall, List.takeWhile_cons, if_neg (by decide)]
    simp
  have hdrop : (ds.reverse ++ 'v' :: 'e' :: 'd' :: '.' :: xs.reverse).dropWhile Char.isDigit
      = 'v' :: 'e' :: 'd' :: '.' :: xs.reverse := by
    rw [dropWhile_append_all hall, List.dropWhile_cons, if_neg (by decide)]
  obtain ⟨d, ds', hd⟩ : ∃ d ds', ds.reverse = d :: ds' := by
    cases hr : ds.reverse with
    | nil => exact absurd (by simpa using hr) h1
    | cons d ds' => exact ⟨d, ds', rfl⟩
  have hds2 : (d :: ds').reverse = ds := by rw [← hd]; exact List.reverse_reverse ds
  rw [stripDevSuffix, hrev, htake, hdrop, hd]
  simp [hds2]

theorem stripDevSuffix_no_dev {front : List (List Char)} {L : List Char}
    (hL1 : L ≠ []) (hL2 : L.all Char.isDigit = true) :
    stripDevSuffix (joinDots (front ++ [L])) = (joinDots (front ++ [L]), none) := by
  have hall : ∀ a ∈ L.reverse, a.isDigit = true := by
    intro a ha
    exact (List.all_eq_true.mp hL2) a (List.mem_reverse.mp ha)
  obtain ⟨d, ds', hd⟩ : ∃ d ds', L.reverse = d :: ds' := by
    cases hr : L.reverse with
    | nil => exact absurd (by simpa using hr) hL1
    | cons d ds' => exact ⟨d, ds', rfl⟩
  cases front with
  | nil =>
    have htake : L.reverse.takeWhile Char.isDigit = L.reverse := takeWhile_all hall
    have hdrop : L.reverse.dropWhile Char.isDigit = [] := dropWhile_all hall
    rw [show joinDots ([] ++ [L]) = L from rfl, stripDevSuffix, htake, hdrop, hd]
  | cons x xs =>
    have hjoin : joinDots ((x :: xs) ++ [L]) = joinDots (x :: xs) ++ '.' :: L :=
      joinDots_concat (by simp) L
    have hrev : (joinDots (x :: xs) ++ '.' :: L).reverse
        = L.reverse ++ '.' :: (joinDots (x :: xs)).reverse := by
      simp [List.reverse_append]
    have htake : (L.reverse ++ '.' :: (joinDots (x :: xs)).reverse).takeWhile Char.isDigit
        = L.reverse := by
      rw [takeWhile_append_all hall, List.takeWhile_cons, if_neg (by decide)]
      simp
    have hdrop : (L.reverse ++ '.' :: (joinDots (x :: xs)).reverse).dropWhile Char.isDigit
        = '.' :: (joinDots (x :: xs)).reverse := by
      rw [dropWhile_append_all hall, List.dropWhile_cons, if_neg (by decide)]
    rw [hjoin, stripDevSuffix, hrev, htake, hdrop, hd]
    rfl

/-! ## Lemmas: structure of successfully parsed version strings -/

theorem parsePyVersion_eq_some {s : String} {v : PyVersion}
    (h : parsePyVersion s = some v) :
    parseTail (splitDots s.data) = some (v.releaseParts, v.dev) ∧ v.releaseParts ≠ [] := by
  rw [parsePyVersion] at h
  cases hpt : parseTail (splitDots s.data) with
  | none => rw [hpt] at h; exact absurd h (by simp)
  | some rd =>
    rw [hpt] at h
    obtain ⟨rel, dev⟩ := rd
    change (if rel = [] then (none : Option PyVersion) else some ⟨rel, dev⟩) = some v at h
    by_cases hrel : rel = []
    · rw [if_pos hrel] at h; exact absurd h (by simp)
    · rw [if_neg hrel] at h
      obtain rfl : v = ⟨rel, dev⟩ := by injection h with h'; exact h'.symm
      exact ⟨rfl, hrel⟩

theorem parsePyVersion_of_parseTail {s : String} {rel : List Nat} {dev : Option Nat}
    (h : parseTail (splitDots s.data) = some (rel, dev)) (hrel : rel ≠ []) :
    parsePyVersion s = some ⟨rel, dev⟩ := by
  rw [parsePyVersion, h]
  show (if rel = [] then (none : Option PyVersion) else some ⟨rel, dev⟩) = some ⟨rel, dev⟩
  rw [if_neg hrel]

theorem stripDevSuffix_of_parse_none {s : String} {v : PyVersion}
    (h : parsePyVersion s = some v) (hdev : v.dev = none) :
    stripDevSuffix s.data = (s.data, none) := by
  obtain ⟨hpt, hrel⟩ := parsePyVersion_eq_some h
  rw [hdev] at hpt
  have hdig := parseTail_all_digit hpt
  rcases List.eq_nil_or_concat (splitDots s.data) with h0 | ⟨front, L, h0⟩
  · exact absurd h0 (splitDots_ne_nil _)
  · rw [List.concat_eq_append] at h0
    have hL := hdig L (by rw [h0]; simp)
    have hjoin : s.data = joinDots (front ++ [L]) := by
      rw [← h0, joinDots_splitDots]
    rw [hjoin]
    exact stripDevSuffix_no_dev hL.1 hL.2

theorem dot_not_mem_dev_chunk {t : List Char} (ht : t.all Char.isDigit = true) :
    '.' ∉ ('d' :: 'e' :: 'v' :: t) := by
  intro hmem
  simp only [List.mem_cons] at hmem
  rcases hmem with h | h | h | h
  · exact absurd h (by decide)
  · exact absurd h (by decide)
  · exact absurd h (by decide)
  · exact dot_not_mem_of_all_digit ht h

theorem parse_dev_decomp {s : String} {v : PyVersion} {n : Nat}
    (h : parsePyVersion s = some v) (hdev : v.dev = some n) :
    ∃ xs ds, s.data = xs ++ '.' :: 'd' :: 'e' :: 'v' :: ds ∧
      ds ≠ [] ∧ ds.all Char.isDigit = true ∧ decValue ds = n ∧
      stripDevSuffix s.data = (xs, some n) ∧
      (∀ m t, parseNat t = some m →
        parsePyVersion ⟨xs ++ '.' :: 'd' :: 'e' :: 'v' :: t⟩ =
          some ⟨v.releaseParts, some m⟩) := by
  obtain ⟨hpt, hrel⟩ := parsePyVersion_eq_some h
  rw [hdev] at hpt
  obtain ⟨front, ds, hchunks, hds, hfront⟩ := parseTail_dev_decomp hpt
  have hfrontne : front ≠ [] := by
    rintro rfl
    rw [parseTail] at hfront
    simp only [Option.some.injEq, Prod.mk.injEq] at hfront
    exact hrel hfront.1.symm
  have hfdig := parseTail_all_digit hfront
  have hfnd : ∀ ch ∈ front, '.' ∉ ch :=
    fun ch hch => dot_not_mem_of_all_digit (hfdig ch hch).2
  have hsdata : s.data = joinDots front ++ '.' :: 'd' :: 'e' :: 'v' :: ds := by
    conv_lhs => rw [← joinDots_splitDots s.data]
    rw [hchunks, joinDots_concat hfrontne]
  have hdsprop := parseNat_eq_some hds
  refine ⟨joinDots front, ds, hsdata, hdsprop.1, hdsprop.2.1, hdsprop.2.2, ?_, ?_⟩
  · rw [hsdata, ← hdsprop.2.2]
    exact stripDevSuffix_append_dev hdsprop.1 hdsprop.2.1
  · intro m t hpm
    have htdig := parseNat_eq_some hpm
    have hsplit : splitDots (joinDots front ++ '.' :: 'd' :: 'e' :: 'v' :: t)
        = front ++ ['d' :: 'e' :: 'v' :: t] := by
      rw [splitDots_joinDots_append hfrontne hfnd,
        splitDots_no_dot (dot_not_mem_dev_chunk htdig.2.1)]
    exact parsePyVersion_of_parseTail
      (by rw [show (⟨joinDots front ++ '.' :: 'd' :: 'e' :: 'v' :: t⟩ : String).data
            = joinDots front ++ '.' :: 'd' :: 'e' :: 'v' :: t from rfl, hsplit]
          exact parseTail_append_dev hfront hpm) hrel

/-! ## Lemmas: round-trips for the formatted bump results -/

theorem fmtRel3_eq_joinDots (a b c : Nat) :
    fmtRel3 a b c = joinDots [natToChars a, natToChars b, natToChars c] := rfl

theorem fmtRel3_chunks_no_dot (a b c : Nat) :
    ∀ ch ∈ [natToChars a, natToChars b, natToChars c], '.' ∉ ch := by
  intro ch hch
  simp only [List.mem_cons, List.not_mem_nil, or_false] at hch
  rcases hch with rfl | rfl | rfl <;> exact dot_not_mem_natToChars _

theorem parseTail_fmt_chunks (a b c : Nat) :
    parseTail [natToChars a, natToChars b, natToChars c] = some ([a, b, c], none) := by
  have h1 : parseTail [natToChars c] = some ([c], none) := by
    rw [parseTail, devChunk?_of_digit (natToChars_all_digit c), parseNat_natToChars]
  exact parseTail_cons_num (parseNat_natToChars a)
    (parseTail_cons_num (parseNat_natToChars b) h1)

theorem parse_fmtRel3 (a b c : Nat) :
    parsePyVersion ⟨fmtRel3 a b c⟩ = some ⟨[a, b, c], none⟩ := by
  apply parsePyVersion_of_parseTail _ (by simp)
  rw [show (⟨fmtRel3 a b c⟩ : String).data = fmtRel3 a b c from rfl,
    fmtRel3_eq_joinDots,
    splitDots_joinDots (by simp) (fmtRel3_chunks_no_dot a b c)]
  exact parseTail_fmt_chunks a b c

theorem parse_fmtRel3_dev {t : List Char} {m : Nat} (a b c : Nat)
    (ht : parseNat t = some m) :
    parsePyVersion ⟨fmtRel3 a b c ++ '.' :: 'd' :: 'e' :: 'v' :: t⟩ =
      some ⟨[a, b, c], some m⟩ := by
  apply parsePyVersion_of_parseTail _ (by simp)
  rw [show (⟨fmtRel3 a b c ++ '.' :: 'd' :: 'e' :: 'v' :: t⟩ : String).data
      = fmtRel3 a b c ++ '.' :: 'd' :: 'e' :: 'v' :: t from rfl,
    fmtRel3_eq_joinDots,
    splitDots_joinDots_append (by simp) (fmtRel3_chunks_no_dot a b c),
    splitDots_no_dot (dot_not_mem_dev_chunk (parseNat_eq_some ht).2.1)]
  exact parseTail_append_dev (parseTail_fmt_chunks a b c) ht

/-! ## Evaluation lemmas for the bump functions -/

theorem bump_semver_eval {s : String} {v : PyVersion} {a b c : Nat}
    (hp : parsePyVersion s = some v) (hpad : pad3 v.releaseParts = (a, b, c)) :
    bump_semver s "major" = .ok ⟨fmtRel3 (a + 1) 0 0⟩ ∧
    bump_semver s "minor" = .ok ⟨fmtRel3 a (b + 1) 0⟩ ∧
    (v.dev = none → bump_semver s "patch" = .ok ⟨fmtRel3 a b (c + 1)⟩) ∧
    (v.dev ≠ none → bump_semver s "patch" = .ok ⟨fmtRel3 a b c⟩) := by
  refine ⟨?_, ?_, ?_, ?_⟩
  · simp [bump_semver, hp, hpad]
  · simp [bump_semver, hp, hpad]
  · intro hdev
    simp [bump_semver, hp, hpad, hdev]
  · intro hdev
    simp [bump_semver, hp, hpad, hdev]

theorem bump_dev_eval {s : String} {v : PyVersion} (hp : parsePyVersion s = some v) :
    bump_dev s =
      .ok ⟨(stripDevSuffix s.data).1 ++ '.' :: 'd' :: 'e' :: 'v' ::
        natToChars ((stripDevSuffix s.data).2.getD 0 + 1)⟩ := by
  simp only [bump_dev, hp]

theorem next_dev_of_fmt (a b c : Nat) :
    _next_dev_version ⟨fmtRel3 a b c⟩ =
      .ok ⟨fmtRel3 a b (c + 1) ++ '.' :: 'd' :: 'e' :: 'v' :: ['0']⟩ ∧
    parsePyVersion ⟨fmtRel3 a b (c + 1) ++ '.' :: 'd' :: 'e' :: 'v' :: ['0']⟩ =
      some ⟨[a, b, c + 1], some 0⟩ := by
  constructor
  · simp only [_next_dev_version, parse_fmtRel3]
    rw [if_neg (by simp)]
    simp [pad3]
  · exact parse_fmtRel3_dev a b (c + 1) (show parseNat ['0'] = some 0 from rfl)

theorem verLtB_fmt (a b c : Nat) :
    verLtB ⟨[a, b, c], none⟩ ⟨[a, b, c + 1], some 0⟩ = true := by
  have h3 : relCompare [c] [c + 1] = .lt := by
    rw [relCompare, if_pos (Nat.lt_succ_self c)]
  have h2 : relCompare [b, c] [b, c + 1] = .lt := by
    rw [relCompare, if_neg (lt_irrefl b), if_neg (lt_irrefl b), h3]
  have h1 : relCompare [a, b, c] [a, b, c + 1] = .lt := by
    rw [relCompare, if_neg (lt_irrefl a), if_neg (lt_irrefl a), h2]
  simp only [verLtB, h1]

/-! ## Claim theorems: the version algebra -/

/-- C1: for every version string that parses with a three-component
release, `bump(version, kind)` for `kind ∈ patch/minor/major` drops the
development suffix, increments the requested component and zeroes the
lower-order ones, except that `patch` on a dev version only strips the
suffix; and the four documented examples hold. -/
theorem bump_semver_spec {s : String} {a b c : Nat} {d : Option Nat}
    (hp : parsePyVersion s = some ⟨[a, b, c], d⟩) :
    bump_version s "major" = .ok ⟨fmtRel3 (a + 1) 0 0⟩ ∧
    bump_version s "minor" = .ok ⟨fmtRel3 a (b + 1) 0⟩ ∧
    (d = none → bump_version s "patch" = .ok ⟨fmtRel3 a b (c + 1)⟩) ∧
    (d ≠ none → bump_version s "patch" = .ok ⟨fmtRel3 a b c⟩) ∧
    bump_version "1.2.3" "patch" = .ok "1.2.4" ∧
    bump_version "1.2.3" "minor" = .ok "1.3.0" ∧
    bump_version "1.2.3" "major" = .ok "2.0.0" ∧
    bump_version "1.2.3.dev4" "patch" = .ok "1.2.3" := by
  obtain ⟨h1, h2, h3, h4⟩ := bump_semver_eval hp (show pad3 [a, b, c] = (a, b, c) from rfl)
  have hbv : ∀ p : String, p ≠ "dev" → bump_version s p = bump_semver s p := by
    intro p hpz
    rw [bump_version, if_neg hpz]
  exact ⟨(hbv "major" (by decide)).trans h1, (hbv "minor" (by decide)).trans h2,
    fun hd => (hbv "patch" (by decide)).trans (h3 hd),
    fun hd => (hbv "patch" (by decide)).trans (h4 hd),
    rfl, rfl, rfl, rfl⟩

/-- C1 witness: the theorem applied to the concrete version `1.2.3`. -/
theorem bump_semver_spec_witness :
    parsePyVersion "1.2.3" = some ⟨[1, 2, 3], none⟩ ∧
    bump_version "1.2.3" "major" = .ok "2.0.0" :=
  ⟨rfl, by
    have h := bump_semver_spec (s := "1.2.3") (a := 1) (b := 2) (c := 3)
      (d := none) rfl
    exact h.1⟩

/-- C4: `nextDevelopmentVersion` increments the dev number of a dev release
and otherwise increments patch and appends `.dev0`; with the two
documented examples. -/
theorem next_dev_version_spec {s : String} {v : PyVersion}
    (hp : parsePyVersion s = some v) :
    (∀ a b c, v.dev = none → pad3 v.releaseParts = (a, b, c) →
      _next_dev_version s =
        .ok ⟨fmtRel3 a b (c + 1) ++ '.' :: 'd' :: 'e' :: 'v' :: ['0']⟩ ∧
      parsePyVersion ⟨fmtRel3 a b (c + 1) ++ '.' :: 'd' :: 'e' :: 'v' :: ['0']⟩ =
        some ⟨[a, b, c + 1], some 0⟩) ∧
    (∀ n, v.dev = some n → ∃ t, _next_dev_version s = .ok t ∧
      parsePyVersion t = some ⟨v.releaseParts, some (n + 1)⟩) ∧
    _next_dev_version "1.2.3" = .ok "1.2.4.dev0" ∧
    _next_dev_version "1.2.3.dev4" = .ok "1.2.3.dev5" := by
  refine ⟨?_, ?_, rfl, rfl⟩
  · intro a b c hdev hpad
    constructor
    · simp only [_next_dev_version, hp, hpad]
      rw [if_neg (fun h => absurd hdev h)]
    · exact parse_fmtRel3_dev a b (c + 1) (show parseNat ['0'] = some 0 from rfl)
  · intro n hdev
    obtain ⟨xs, ds, hsdata, hds1, hds2, hdsval, hstrip, hparse⟩ :=
      parse_dev_decomp hp hdev
    refine ⟨⟨xs ++ '.' :: 'd' :: 'e' :: 'v' :: natToChars (n + 1)⟩, ?_, ?_⟩
    · have hbd := bump_dev_eval hp
      rw [hstrip] at hbd
      simp only [Option.getD_some] at hbd
      simp only [_next_dev_version, hp]
      rw [if_pos (by rw [hdev]; simp)]
      exact hbd
    · exact hparse (n + 1) _ (parseNat_natToChars (n + 1))

/-- C4 witness: the theorem applied to the concrete version `1.2.3.dev4`. -/
theorem next_dev_version_spec_witness :
    parsePyVersion "1.2.3.dev4" = some ⟨[1, 2, 3], some 4⟩ ∧
    ∃ t, _next_dev_version "1.2.3.dev4" = .ok t ∧
      parsePyVersion t = some ⟨[1, 2, 3], some 5⟩ :=
  ⟨rfl, by
    have h := next_dev_version_spec (s := "1.2.3.dev4")
      (v := ⟨[1, 2, 3], some 4⟩) rfl
    exact h.2.1 4 rfl⟩

/-- C7 counterexample: `1.2.3` is a valid version carrying no development
suffix, yet `bump_dev` does not raise — it returns `1.2.3.dev1`. -/
theorem bump_dev_no_suffix_counterexample :
    parsePyVersion "1.2.3" = some ⟨[1, 2, 3], none⟩ ∧
    bump_dev "1.2.3" = .ok "1.2.3.dev1" :=
  ⟨rfl, rfl⟩

/-- C7 amended: on a version with suffix `.devN`, `bump_dev` keeps the raw
text before the suffix and re-appends `.dev(N+1)`; on a valid version with
no suffix it does not raise but appends `.dev1`. -/
theorem bump_dev_spec {s : String} {v : PyVersion}
    (hp : parsePyVersion s = some v) :
    (∀ n, v.dev = some n →
      bump_dev s = .ok ⟨(stripDevSuffix s.data).1 ++
        '.' :: 'd' :: 'e' :: 'v' :: natToChars (n + 1)⟩ ∧
      ∃ t, bump_dev s = .ok t ∧
        parsePyVersion t = some ⟨v.releaseParts, some (n + 1)⟩) ∧
    (v.dev = none → bump_dev s = .ok ⟨s.data ++ '.' :: 'd' :: 'e' :: 'v' :: ['1']⟩) := by
  constructor
  · intro n hdev
    obtain ⟨xs, ds, hsdata, hds1, hds2, hdsval, hstrip, hparse⟩ :=
      parse_dev_decomp hp hdev
    have hbd := bump_dev_eval hp
    rw [hstrip] at hbd
    simp only [Option.getD_some] at hbd
    refine ⟨by rw [hstrip]; exact hbd, ⟨xs ++ '.' :: 'd' :: 'e' :: 'v' :: natToChars (n + 1)⟩,
      hbd, hparse (n + 1) _ (parseNat_natToChars (n + 1))⟩
  · intro hdev
    have hbd := bump_dev_eval hp
    rw [stripDevSuffix_of_parse_none hp hdev] at hbd
    simpa using hbd

/-- C7 witness: the amended theorem applied to the concrete version
`1.2.3.dev4`. -/
theorem bump_dev_spec_witness :
    parsePyVersion "1.2.3.dev4" = some ⟨[1, 2, 3], some 4⟩ ∧
    bump_dev "1.2.3.dev4" = .ok "1.2.3.dev5" :=
  ⟨rfl, by
    have h := bump_dev_spec (s := "1.2.3.dev4") (v := ⟨[1, 2, 3], some 4⟩) rfl
    exact (h.1 4 rfl).1⟩

/-- C8 counterexample: `1.2` matches neither documented shape, yet the
parser embedded from the code accepts it and all bump operations succeed on
it instead of propagating an invalid-format error. -/
theorem version_shape_counterexample :
    specAcceptedShape "1.2" = false ∧
    parsePyVersion "1.2" = some ⟨[1, 2], none⟩ ∧
    bump_semver "1.2" "patch" = .ok "1.2.1" ∧
    bump_dev "1.2" = .ok "1.2.dev1" ∧
    _next_dev_version "1.2" = .ok "1.2.1.dev0" :=
  ⟨rfl, rfl, rfl, rfl, rfl⟩

/-- C8 amended: strings rejected by the underlying version parser make
every bump operation fail with the invalid-version error (propagated, never
guessed); but the accepted set is strictly larger than the two documented
shapes. -/
theorem invalid_version_propagates {s : String} (part : String)
    (hp : parsePyVersion s = none) :
    bump_semver s part = .error (.invalidVersion s) ∧
    bump_dev s = .error (.invalidVersion s) ∧
    _next_dev_version s = .error (.invalidVersion s) ∧
    bump_version s part = .error (.invalidVersion s) := by
  have h1 : bump_dev s = .error (.invalidVersion s) := by simp [bump_dev, hp]
  have h2 : bump_semver s part = .error (.invalidVersion s) := by
    simp [bump_semver, hp]
  refine ⟨h2, h1, by simp [_next_dev_version, hp], ?_⟩
  by_cases hd : part = "dev"
  · rw [bump_version, if_pos hd]; exact h1
  · rw [bump_version, if_neg hd]; exact h2

/-- C8 witness: the amended theorem applied to the unparsable string
`abc`. -/
theorem invalid_version_propagates_witness :
    parsePyVersion "abc" = none ∧
    bump_version "abc" "patch" = .error (.invalidVersion "abc") :=
  ⟨rfl, (invalid_version_propagates (s := "abc") "patch" rfl).2.2.2⟩

/-- C9: for every valid version and kind in patch/minor/major, the next
development version of the bumped release is strictly greater than the
release under the numeric version ordering. -/
theorem bump_then_next_dev_gt {s : String} {v : PyVersion} {part : String}
    (hp : parsePyVersion s = some v)
    (hk : part = "patch" ∨ part = "minor" ∨ part = "major") :
    ∃ r nd vr vnd,
      bump_semver s part = .ok r ∧ _next_dev_version r = .ok nd ∧
      parsePyVersion r = some vr ∧ parsePyVersion nd = some vnd ∧
      verLtB vr vnd = true := by
  have hpad : pad3 v.releaseParts =
      ((pad3 v.releaseParts).1, (pad3 v.releaseParts).2.1, (pad3 v.releaseParts).2.2) := rfl
  obtain ⟨h1, h2, h3, h4⟩ := bump_semver_eval hp hpad
  have finish : ∀ A B C : Nat, bump_semver s part = .ok ⟨fmtRel3 A B C⟩ →
      ∃ r nd vr vnd,
        bump_semver s part = .ok r ∧ _next_dev_version r = .ok nd ∧
        parsePyVersion r = some vr ∧ parsePyVersion nd = some vnd ∧
        verLtB vr vnd = true := by
    intro A B C hb
    obtain ⟨hnd, hndp⟩ := next_dev_of_fmt A B C
    exact ⟨⟨fmtRel3 A B C⟩, ⟨fmtRel3 A B (C + 1) ++ '.' :: 'd' :: 'e' :: 'v' :: ['0']⟩,
      ⟨[A, B, C], none⟩, ⟨[A, B, C + 1], some 0⟩,
      hb, hnd, parse_fmtRel3 A B C, hndp, verLtB_fmt A B C⟩
  rcases hk with rfl | rfl | rfl
  · cases hdev : v.dev with
    | none => exact finish _ _ _ (h3 hdev)
    | some n => exact finish _ _ _ (h4 (by rw [hdev]; simp))
  · exact finish _ _ _ h2
  · exact finish _ _ _ h1

/-- C9 witness: the theorem applied to the concrete version `1.2.3` with
kind `patch`. -/
theorem bump_then_next_dev_gt_witness :
    parsePyVersion "1.2.3" = some ⟨[1, 2, 3], none⟩ ∧
    ∃ r nd vr vnd,
      bump_semver "1.2.3" "patch" = .ok r ∧ _next_dev_version r = .ok nd ∧
      parsePyVersion r = some vr ∧ parsePyVersion nd = some vnd ∧
      verLtB vr vnd = true :=
  ⟨rfl, bump_then_next_dev_gt (s := "1.2.3") (v := ⟨[1, 2, 3], none⟩) rfl
    (Or.inl rfl)⟩

/-! ## Claim theorems: the git operation layer -/

/-- C10: when no tag exists (`get_last_tag` answers `none`, because
`git describe` failed or printed nothing), `has_changes_since_last_tag`
returns `true` without error and without issuing the `rev-list` counting
command. -/
theorem has_changes_no_tag {σ : Type} (exec : Exec σ) (s0 : σ)
    (p : ProcResult) (s1 : σ)
    (h : exec s0 ["describe", "--tags", "--abbrev=0"] = (p, s1))
    (hno : p.returncode ≠ 0 ∨ pyStrip (p.stdout.getD "") = "") :
    get_last_tag exec s0 = (none, s1, [["describe", "--tags", "--abbrev=0"]]) ∧
    has_changes_since_last_tag exec s0 =
      (.ok true, s1, [["describe", "--tags", "--abbrev=0"]]) := by
  have hg : get_last_tag exec s0 = (none, s1, [["describe", "--tags", "--abbrev=0"]]) := by
    by_cases hrc : p.returncode = 0
    · have hstr : pyStrip (p.stdout.getD "") = "" := by
        rcases hno with h' | h'
        · exact absurd hrc h'
        · exact h'
      simp [get_last_tag, h, hrc, hstr]
    · simp [get_last_tag, h, hrc]
  exact ⟨hg, by simp [has_changes_since_last_tag, hg]⟩

/-- C10 witness: the theorem applied to a repository script whose
`git describe` always fails. -/
theorem has_changes_no_tag_witness :
    (noTagScript 0 ["describe", "--tags", "--abbrev=0"]).1.returncode ≠ 0 ∧
    has_changes_since_last_tag noTagScript 0 =
      (.ok true, 1, [["describe", "--tags", "--abbrev=0"]]) :=
  ⟨by decide,
    (has_changes_no_tag noTagScript 0
      ⟨128, some "", some "fatal: No names found, cannot describe anything."⟩ 1
      rfl (Or.inl (by decide))).2⟩

/-- C6: `calc_ahead_behind` answers `(0, 0)` without raising whenever the
comparison command fails (absent remote reference), and
`analyze_repo_status` reports `ahead = behind = 0` when `remote/branch`
does not exist while still computing the uncommitted flag from
`status --porcelain`. -/
theorem ahead_behind_absent_remote {σ : Type} (exec : Exec σ)
    (branch remote remote_ref : String) (s0 : σ)
    (p : ProcResult) (s1 : σ)
    (h : exec s0 ["rev-list", "--left-right", "--count",
        branch ++ "..." ++ remote_ref] = (p, s1))
    (hrc : p.returncode ≠ 0) :
    calc_ahead_behind exec branch remote_ref s0 =
      (.ok (0, 0), s1,
        [["rev-list", "--left-right", "--count", branch ++ "..." ++ remote_ref]]) ∧
    (∀ pv t1, exec s0 ["rev-parse", "--verify", remote ++ "/" ++ branch] = (pv, t1) →
      pv.returncode ≠ 0 →
      ∀ ps t2, exec t1 ["status", "--porcelain"] = (ps, t2) → ps.returncode = 0 →
        analyze_repo_status exec branch remote s0 =
          (.ok ⟨0, 0, pyStrip (ps.stdout.getD "") ≠ ""⟩, t2,
            [["rev-parse", "--verify", remote ++ "/" ++ branch],
             ["status", "--porcelain"]])) := by
  constructor
  · simp [calc_ahead_behind, h, hrc]
  · intro pv t1 hpv hpvrc ps t2 hps hpsrc
    simp [analyze_repo_status, remote_branch_exists, hpv, hpvrc,
      has_uncommitted_changes, get_uncommitted_changes, hps, hpsrc]

/-- C6 witness: the theorem applied to a repository script whose remote
reference queries fail and whose working tree is dirty. -/
theorem ahead_behind_absent_remote_witness :
    (absentRemoteScript 0 ["rev-list", "--left-right", "--count",
      "main...origin/main"]).1.returncode ≠ 0 ∧
    calc_ahead_behind absentRemoteScript "main" "origin/main" 0 =
      (.ok (0, 0), 1,
        [["rev-list", "--left-right", "--count", "main...origin/main"]]) ∧
    analyze_repo_status absentRemoteScript "main" "origin" 0 =
      (.ok ⟨0, 0, true⟩, 2,
        [["rev-parse", "--verify", "origin/main"], ["status", "--porcelain"]]) := by
  have h := ahead_behind_absent_remote absentRemoteScript "main" "origin"
    "origin/main" 0 ⟨128, some "", some "fatal: Needed a single revision"⟩ 1
    rfl (by decide)
  refine ⟨by decide, h.1, ?_⟩
  have h2 := h.2 ⟨128, some "", some "fatal: Needed a single revision"⟩ 1 rfl
    (by decide) ⟨0, some " M x.py\n", some ""⟩ 2 rfl (by decide)
  rw [h2]
  rfl

/-- C3: `commit_all` stages with `add -A` and then commits, in that order;
a non-zero commit exit whose output matches the known "nothing to commit"
phrasing is treated as success, and every other non-zero commit exit
raises `GitError`. -/
theorem commit_all_spec {σ : Type} (exec : Exec σ) (msg remote : String) (s0 : σ)
    (pa : ProcResult) (s1 : σ) (ha : exec s0 ["add", "-A"] = (pa, s1))
    (ha0 : pa.returncode = 0)
    (pc : ProcResult) (s2 : σ) (hc : exec s1 ["commit", "-m", msg] = (pc, s2)) :
    (pc.returncode = 0 →
      commit_all exec msg remote false false s0 =
        (.ok (), s2, [["add", "-A"], ["commit", "-m", msg]])) ∧
    (pc.returncode ≠ 0 →
      nothingToCommit ((pc.stdout.getD "") ++ (pc.stderr.getD "")) = true →
      commit_all exec msg remote false false s0 =
        (.ok (), s2, [["add", "-A"], ["commit", "-m", msg]])) ∧
    (pc.returncode ≠ 0 →
      nothingToCommit ((pc.stdout.getD "") ++ (pc.stderr.getD "")) = false →
      commit_all exec msg remote false false s0 =
        (.error (.gitError (pyOr pc.stderr pc.stdout)), s2,
          [["add", "-A"], ["commit", "-m", msg]])) := by
  refine ⟨?_, ?_, ?_⟩
  · intro h0
    simp [commit_all, ha, ha0, hc, h0]
  · intro h0 hbenign
    simp [commit_all, ha, ha0, hc, h0, hbenign]
  · intro h0 hother
    simp [commit_all, ha, ha0, hc, h0, hother]

/-- C3 witness: the theorem applied to a repository script where the commit
step reports "nothing to commit" — as on the second of two consecutive
`commit_all` runs with no intervening changes. -/
theorem commit_all_spec_witness :
    nothingToCommit "On branch main\nnothing to commit, working tree clean" = true ∧
    commit_all commitNothingScript "msg" "origin" false false 0 =
      (.ok (), 2, [["add", "-A"], ["commit", "-m", "msg"]]) :=
  ⟨by decide, by
    have h := commit_all_spec commitNothingScript "msg" "origin" 0
      ⟨0, none, none⟩ 1 rfl rfl
      ⟨1, some "On branch main\nnothing to commit, working tree clean", some ""⟩ 2 rfl
    exact h.2.1 (by decide) (by decide)⟩

/-- C5: `_push_repo` succeeds with a single push when the plain push exits
zero; on a failure matching the missing-upstream phrasing it resolves the
branch name and retries exactly once with `--set-upstream` (a retry
failure is fatal); on any other failure it raises without retrying. -/
theorem push_repo_spec {σ : Type} (exec : Exec σ) (remote : String) (s0 : σ)
    (p : ProcResult) (s1 : σ) (hpush : exec s0 ["push", remote] = (p, s1)) :
    (p.returncode = 0 →
      _push_repo exec remote s0 = (.ok (), s1, [["push", remote]])) ∧
    (p.returncode ≠ 0 → upstreamPhrase (p.stderr.getD "") = false →
      _push_repo exec remote s0 =
        (.error (.gitError (some (p.stderr.getD ""))), s1, [["push", remote]])) ∧
    (p.returncode ≠ 0 → upstreamPhrase (p.stderr.getD "") = true →
      ∀ pb s2, exec s1 ["rev-parse", "--abbrev-ref", "HEAD"] = (pb, s2) →
        pb.returncode = 0 →
        ∀ pf s3, exec s2 ["push", "--set-upstream", remote,
            pyStrip (pb.stdout.getD "")] = (pf, s3) →
          (pf.returncode = 0 →
            _push_repo exec remote s0 = (.ok (), s3,
              [["push", remote], ["rev-parse", "--abbrev-ref", "HEAD"],
               ["push", "--set-upstream", remote, pyStrip (pb.stdout.getD "")]])) ∧
          (pf.returncode ≠ 0 →
            _push_repo exec remote s0 =
              (.error (.gitError (pyOr pf.stderr (some (p.stderr.getD "")))), s3,
                [["push", remote], ["rev-parse", "--abbrev-ref", "HEAD"],
                 ["push", "--set-upstream", remote, pyStrip (pb.stdout.getD "")]]))) := by
  refine ⟨?_, ?_, ?_⟩
  · intro h0
    simp [_push_repo, hpush, h0]
  · intro h0 hph
    simp [_push_repo, hpush, h0, hph]
  · intro h0 hph pb s2 hpb hpb0 pf s3 hpf
    constructor
    · intro hf0
      simp [_push_repo, hpush, h0, hph, hpb, hpb0, hpf, hf0]
    · intro hf0
      simp [_push_repo, hpush, h0, hph, hpb, hpb0, hpf, hf0]

/-- C5 witness: the theorem applied to a repository script where the plain
push fails with the missing-upstream phrasing and the single retry
succeeds. -/
theorem push_repo_spec_witness :
    upstreamPhrase "fatal: ... use git push --set-upstream origin main" = true ∧
    _push_repo pushUpstreamScript "origin" 0 =
      (.ok (), 3,
        [["push", "origin"], ["rev-parse", "--abbrev-ref", "HEAD"],
         ["push", "--set-upstream", "origin", "main"]]) := by
  refine ⟨by decide, ?_⟩
  have h := push_repo_spec pushUpstreamScript "origin" 0
    ⟨128, some "", some "fatal: ... use git push --set-upstream origin main"⟩ 1 rfl
  have h2 := (h.2.2 (by decide) (by decide) ⟨0, some "main\n", some ""⟩ 2 rfl
    (by decide) ⟨0, some "", some ""⟩ 3 (by rfl)).1 (by decide)
  rw [h2]
  rfl

/-- Case analysis of the `finally` block of the stash transaction. -/
theorem stash_finalize_cases {σ : Type} (exec : Exec σ) (msg : String)
    (keep : Bool) (s2 : σ)
    (p1 : ProcResult) (s3 : σ) (h1 : exec s2 ["stash", "pop"] = (p1, s3))
    (pd : ProcResult) (s4 : σ)
    (h2 : exec s3 ["diff", "--name-only", "--diff-filter=U"] = (pd, s4)) :
    (pyStrip (pd.stdout.getD "") ≠ "" ∨ keep = true →
      stash_finalize exec msg keep s2 =
        (true, s4, [["stash", "pop"], ["diff", "--name-only", "--diff-filter=U"]])) ∧
    (pyStrip (pd.stdout.getD "") = "" → keep = false →
      ∀ pl s5, exec s4 ["stash", "list"] = (pl, s5) →
        (∀ out, pl.stdout = some out → out ≠ "" →
          firstLine out ≠ "" ∧ strIn msg (firstLine out) = true →
          ∀ pdr s6, exec s5 ["stash", "drop", refOfLine (firstLine out)] = (pdr, s6) →
            stash_finalize exec msg keep s2 =
              (false, s6,
                [["stash", "pop"], ["diff", "--name-only", "--diff-filter=U"],
                 ["stash", "list"], ["stash", "drop", refOfLine (firstLine out)]])) ∧
        (∀ out, pl.stdout = some out → out ≠ "" →
          ¬(firstLine out ≠ "" ∧ strIn msg (firstLine out) = true) →
          stash_finalize exec msg keep s2 =
            (false, s5,
              [["stash", "pop"], ["diff", "--name-only", "--diff-filter=U"],
               ["stash", "list"]])) ∧
        ((pl.stdout = none ∨ pl.stdout = some "") →
          stash_finalize exec msg keep s2 =
            (false, s5,
              [["stash", "pop"], ["diff", "--name-only", "--diff-filter=U"],
               ["stash", "list"]]))) := by
  constructor
  · intro hck
    rcases hck with hcf | hk
    · simp [stash_finalize, h1, h2, hcf]
    · simp [stash_finalize, h1, h2, hk]
  · intro hstr hkeep pl s5 hl
    refine ⟨?_, ?_, ?_⟩
    · intro out hout hne hmatch pdr s6 hdrop
      simp [stash_finalize, h1, h2, hstr, hkeep, hl, hout, hne, hmatch.1,
        hmatch.2, hdrop]
    · intro out hout hne hnot
      simp [stash_finalize, h1, h2, hstr, hkeep, hl, hout, hne, hnot]
    · intro hnone
      rcases hnone with hn | hn
      · simp [stash_finalize, h1, h2, hstr, hkeep, hl, hn]
      · simp [stash_finalize, h1, h2, hstr, hkeep, hl, hn]

/-- C2 amended: an enabled stash transaction stashes, runs the body, and on
every exit path (normal return and body exception alike) pops exactly once,
strictly after the body's commands; the final state is kept precisely when
unmerged paths are reported after the pop or retention was requested;
otherwise the state is cleanly-restored and the top stash entry is dropped
if and only if it matches the transaction label. -/
theorem temporary_stash_spec {σ E : Type} (exec : Exec σ) (iu keep : Bool)
    (msg : String) (body : Body σ E) (s0 : σ)
    (p0 : ProcResult) (s1 : σ) (h0 : exec s0 (stash_push_args iu msg) = (p0, s1))
    (r : Except E Unit) (s2 : σ) (btr : List Cmd) (hb : body s1 = (r, s2, btr))
    (p1 : ProcResult) (s3 : σ) (h1 : exec s2 ["stash", "pop"] = (p1, s3))
    (pd : ProcResult) (s4 : σ)
    (h2 : exec s3 ["diff", "--name-only", "--diff-filter=U"] = (pd, s4)) :
    (∃ post, (temporary_stash exec true iu msg keep body s0).2.2
        = stash_push_args iu msg :: btr ++ ["stash", "pop"] :: post ∧
      ["stash", "pop"] ∉ post ∧ stash_push_args iu msg ≠ ["stash", "pop"]) ∧
    (pyStrip (pd.stdout.getD "") ≠ "" ∨ keep = true →
      temporary_stash exec true iu msg keep body s0 =
        (r.map (fun _ => true), s4,
          stash_push_args iu msg :: btr ++
            [["stash", "pop"], ["diff", "--name-only", "--diff-filter=U"]])) ∧
    (pyStrip (pd.stdout.getD "") = "" → keep = false →
      ∀ pl s5, exec s4 ["stash", "list"] = (pl, s5) →
        (∀ out, pl.stdout = some out → out ≠ "" →
          firstLine out ≠ "" ∧ strIn msg (firstLine out) = true →
          ∀ pdr s6, exec s5 ["stash", "drop", refOfLine (firstLine out)] = (pdr, s6) →
            temporary_stash exec true iu msg keep body s0 =
              (r.map (fun _ => false), s6,
                stash_push_args iu msg :: btr ++
                  [["stash", "pop"], ["diff", "--name-only", "--diff-filter=U"],
                   ["stash", "list"],
                   ["stash", "drop", refOfLine (firstLine out)]])) ∧
        (∀ out, pl.stdout = some out → out ≠ "" →
          ¬(firstLine out ≠ "" ∧ strIn msg (firstLine out) = true) →
          temporary_stash exec true iu msg keep body s0 =
            (r.map (fun _ => false), s5,
              stash_push_args iu msg :: btr ++
                [["stash", "pop"], ["diff", "--name-only", "--diff-filter=U"],
                 ["stash", "list"]])) ∧
        ((pl.stdout = none ∨ pl.stdout = some "") →
          temporary_stash exec true iu msg keep body s0 =
            (r.map (fun _ => false), s5,
              stash_push_args iu msg :: btr ++
                [["stash", "pop"], ["diff", "--name-only", "--diff-filter=U"],
                 ["stash", "list"]]))) := by
  have hun : temporary_stash exec true iu msg keep body s0 =
      (r.map (fun _ => (stash_finalize exec msg keep s2).1),
       (stash_finalize exec msg keep s2).2.1,
       stash_push_args iu msg :: btr ++ (stash_finalize exec msg keep s2).2.2) := by
    simp [temporary_stash, h0, hb]
  obtain ⟨hcaseA, hcaseB⟩ := stash_finalize_cases exec msg keep s2 p1 s3 h1 pd s4 h2
  have hpushne : stash_push_args iu msg ≠ ["stash", "pop"] := by
    simp [stash_push_args]
  refine ⟨?_, ?_, ?_⟩
  · -- the pop happens exactly once, strictly after the body's commands
    by_cases hck : pyStrip (pd.stdout.getD "") ≠ "" ∨ keep = true
    · have h' := hun
      rw [hcaseA hck] at h'
      refine ⟨[["diff", "--name-only", "--diff-filter=U"]], ?_, by decide, hpushne⟩
      rw [h']
    · push_neg at hck
      have hkeepf : keep = false := by
        cases keep
        · rfl
        · exact absurd rfl hck.2
      have hstr : pyStrip (pd.stdout.getD "") = "" := hck.1
      rcases hlist : exec s4 ["stash", "list"] with ⟨pl, s5⟩
      obtain ⟨hdropc, hnodropc, hnonec⟩ := hcaseB hstr hkeepf pl s5 hlist
      have hfin3 : ∃ s' tail, stash_finalize exec msg keep s2 =
          (false, s', [["stash", "pop"], ["diff", "--name-only", "--diff-filter=U"],
            ["stash", "list"]] ++ tail) ∧ ["stash", "pop"] ∉ tail := by
        cases hout : pl.stdout with
        | none => exact ⟨s5, [], by simpa using hnonec (Or.inl hout), by decide⟩
        | some out =>
          by_cases hne : out = ""
          · exact ⟨s5, [], by simpa using hnonec (Or.inr (hne ▸ hout)), by decide⟩
          · by_cases hmatch : firstLine out ≠ "" ∧ strIn msg (firstLine out) = true
            · rcases hdrop : exec s5 ["stash", "drop", refOfLine (firstLine out)]
                with ⟨pdr, s6⟩
              refine ⟨s6, [["stash", "drop", refOfLine (firstLine out)]],
                by simpa using hdropc out hout hne hmatch pdr s6 hdrop, ?_⟩
              simp
            · exact ⟨s5, [], by simpa using hnodropc out hout hne hmatch, by decide⟩
      obtain ⟨s', tail, hfin, htail⟩ := hfin3
      have h' := hun
      rw [hfin] at h'
      refine ⟨["diff", "--name-only", "--diff-filter=U"] :: ["stash", "list"] :: tail,
        by rw [h']; rfl, ?_, hpushne⟩
      intro hmem
      rcases List.mem_cons.mp hmem with hx | hmem'
      · exact absurd hx (by decide)
      · rcases List.mem_cons.mp hmem' with hx | hmem''
        · exact absurd hx (by decide)
        · exact htail hmem''
  · -- kept: conflicts after the pop, or retention requested
    intro hck
    have h' := hun
    rw [hcaseA hck] at h'
    simpa using h'
  · -- cleanly-restored: pop, no conflicts, drop only on a matching top entry
    intro hstr hkeepf pl s5 hlist
    obtain ⟨hdropc, hnodropc, hnonec⟩ := hcaseB hstr hkeepf pl s5 hlist
    refine ⟨?_, ?_, ?_⟩
    · intro out hout hne hmatch pdr s6 hdrop
      have h' := hun
      rw [hdropc out hout hne hmatch pdr s6 hdrop] at h'
      simpa using h'
    · intro out hout hne hnot
      have h' := hun
      rw [hnodropc out hout hne hnot] at h'
      simpa using h'
    · intro hnone
      have h' := hun
      rw [hnonec hnone] at h'
      simpa using h'

/-- C2 witness: the amended theorem applied to a script where the pop
reports an unmerged path, so the transaction classifies the outcome as
kept. -/
theorem temporary_stash_spec_witness :
    pyStrip "pkg/core.py\n" ≠ "" ∧
    temporary_stash stashConflictScript true true "relmsg" false noBody 0 =
      (.ok true, 3,
        [stash_push_args true "relmsg", ["stash", "pop"],
         ["diff", "--name-only", "--diff-filter=U"]]) := by
  refine ⟨by decide, ?_⟩
  have h := temporary_stash_spec stashConflictScript true false "relmsg" noBody 0
    ⟨0, none, none⟩ 1 rfl (Except.ok ()) 1 [] rfl
    ⟨1, some "CONFLICT", some ""⟩ 2 rfl
    ⟨0, some "pkg/core.py\n", some ""⟩ 3 rfl
  have h2 := h.2.1 (Or.inl (by decide))
  rw [h2]
  rfl

/-- C2 counterexample: a cleanly-restored run in which the stash list holds
an entry matching the transaction label below a non-matching top entry; the
claim requires that matching entry to be dropped, but the transaction
issues no drop command at all. -/
theorem temporary_stash_drop_counterexample :
    temporary_stash stashNoDropScript true true "relmsg" false noBody 0 =
      (.ok false, 4,
        [stash_push_args true "relmsg", ["stash", "pop"],
         ["diff", "--name-only", "--diff-filter=U"], ["stash", "list"]]) ∧
    (stashNoDropScript 3 ["stash", "list"]).1.stdout =
      some "s0: other\ns1: On main: relmsg" ∧
    strIn "relmsg" "s0: other" = false ∧
    strIn "relmsg" "s1: On main: relmsg" = true ∧
    (∀ c ∈ [stash_push_args true "relmsg", ["stash", "pop"],
        ["diff", "--name-only", "--diff-filter=U"], ["stash", "list"]],
      List.take 2 c ≠ ["stash", "drop"]) := by
  refine ⟨by rfl, by rfl, by decide, by decide, by decide⟩

end ReleaseTool
